import Mathlib

/-!
Verification of the xsc template engine (`xsc.py`) against its
natural-language specification.

The development shallowly embeds the four components of the engine:

* the placeholder tokenizer `_InlineTemplate.__init__` together with the
  re-serializer `_InlineTemplate.unicode`;
* the placeholder evaluator `_InlineTemplate.eval` together with the
  attribute-error heuristic `_InlineTemplate._possibleVariableName`;
* the execution engine (`XscNode.write` and its subclasses), with the host
  `eval`/`exec` delegated to explicit oracle functions;
* the template compiler `XscTemplate.__init__` / `XscTemplate._processNode`,
  with the DOM tree as an explicit inductive and the mutable node objects
  as an arena indexed by allocation order.

Machine-level texts are `List Char`; the Python `globals()` dictionary is an
association list with dictionary get/set/del semantics.
-/

deriving instance DecidableEq for Except

namespace Xsc

/-! ## Placeholder tokenizer (`_InlineTemplate.__init__`)

The tokenizer is a three-state character machine.  The Python object keeps
`_state`, `_items` and `_text`; `_append` flushes the pending text buffer as
a segment (only when non-empty), optionally switches state, and clears the
buffer. -/

inductive SegKind where
  | text
  | code
deriving DecidableEq, Repr

/-- One `(itemType, itemText)` entry of `_InlineTemplate._items`. -/
structure Seg where
  kind : SegKind
  chars : List Char
deriving DecidableEq, Repr

inductive TokErr where
  | dollarFollowedByBad (c : Char)
  | dollarAtEnd
  | unclosedPlaceholder
deriving DecidableEq, Repr

inductive TState where
  | inText
  | afterDollar
  | inPlaceholder
deriving DecidableEq, Repr

/-- The mutable state of `_InlineTemplate.__init__` during tokenization. -/
structure TMachine where
  st : TState
  items : List Seg
  buf : List Char
deriving DecidableEq, Repr

/-- `_InlineTemplate._append`: flush the buffer as a segment when non-empty,
optionally switch state, always clear the buffer. -/
def tmAppend (m : TMachine) (k : SegKind) (ns : Option TState) : TMachine :=
  { st := ns.getD m.st
    items := if m.buf.isEmpty then m.items else m.items ++ [⟨k, m.buf⟩]
    buf := [] }

/-- One character of the `for ch in templateDescripton` loop. -/
def tmStep (m : TMachine) (ch : Char) : Except TokErr TMachine :=
  match m.st with
  | .inText =>
    if ch = '$' then
      let m2 := tmAppend m .text (some .afterDollar)
      .ok { m2 with buf := m2.buf ++ [ch] }
    else
      .ok { m with buf := m.buf ++ [ch] }
  | .afterDollar =>
    if ch = '$' then
      .ok (tmAppend m .text (some .inText))
    else if ch = '{' then
      .ok { m with st := .inPlaceholder, buf := [] }
    else
      .error (.dollarFollowedByBad ch)
  | .inPlaceholder =>
    if ch = '}' then
      .ok (tmAppend m .code (some .inText))
    else
      .ok { m with buf := m.buf ++ [ch] }

/-- The end-of-input branch of `_InlineTemplate.__init__`. -/
def tmFinish (m : TMachine) : Except TokErr (List Seg) :=
  match m.st with
  | .inText => .ok (tmAppend m .text none).items
  | .afterDollar => .error .dollarAtEnd
  | .inPlaceholder => .error .unclosedPlaceholder

def tmInit : TMachine := ⟨.inText, [], []⟩

/-- The `for ch in templateDescripton` loop itself. -/
def tmRun (m : TMachine) : List Char → Except TokErr TMachine
  | [] => .ok m
  | c :: cs =>
    match tmStep m c with
    | .ok m2 => tmRun m2 cs
    | .error e => .error e

def tokenizeFrom (m : TMachine) (cs : List Char) : Except TokErr (List Seg) :=
  match tmRun m cs with
  | .ok m2 => tmFinish m2
  | .error e => .error e

/-- Tokenizing a template description string, as `_InlineTemplate.__init__`
computes `_items`. -/
def tokenizeChars (cs : List Char) : Except TokErr (List Seg) :=
  tokenizeFrom tmInit cs

/-- `_InlineTemplate.unicode` for one segment: expression segments are wrapped
in a placeholder, every dollar of a literal segment is doubled. -/
def serializeSeg (s : Seg) : List Char :=
  match s.kind with
  | .code => '$' :: '{' :: (s.chars ++ ['}'])
  | .text => (s.chars.map (fun c => if c = '$' then ['$', '$'] else [c])).flatten

/-- `_InlineTemplate.unicode`: concatenation of the serialized segments. -/
def serializeSegs (items : List Seg) : List Char :=
  (items.map serializeSeg).flatten

/-! Structural predicates on segment sequences used by the tokenizer
invariants and the round-trip analysis. -/

/-- A literal segment containing no dollar sign. -/
def dollarFreeText (s : Seg) : Bool :=
  s.kind == .text && s.chars.all (fun c => c != '$')

/-- Shape of every individual segment the tokenizer can emit: non-empty text;
a literal segment is a lone dollar or dollar-free; an expression segment is
free of closing braces. -/
def segOK (s : Seg) : Bool :=
  !s.chars.isEmpty &&
    (match s.kind with
     | .text => s.chars == ['$'] || s.chars.all (fun c => c != '$')
     | .code => s.chars.all (fun c => c != '}'))

def adjOK (a b : Seg) : Bool := !(dollarFreeText a && dollarFreeText b)

/-- No two adjacent dollar-free literal segments. -/
def noAdjDF : List Seg → Bool
  | [] => true
  | [_] => true
  | a :: b :: rest => adjOK a b && noAdjDF (b :: rest)

/-- Two adjacent segments of the same kind exist somewhere in the list. -/
def hasAdjSameKind : List Seg → Bool
  | [] => false
  | [_] => false
  | a :: b :: rest => a.kind == b.kind || hasAdjSameKind (b :: rest)

/-! ### Tokenizer invariants -/

/-- What `_text` may hold in each state: dollar-free in plain text, exactly
one dollar right after a dollar, closing-brace-free inside a placeholder. -/
def bufInv : TState → List Char → Prop
  | .inText, buf => buf.all (fun c => c != '$') = true
  | .afterDollar, buf => buf = ['$']
  | .inPlaceholder, buf => buf.all (fun c => c != '}') = true

def mInv (m : TMachine) : Prop :=
  m.items.all segOK = true ∧ bufInv m.st m.buf

theorem mInv_init : mInv tmInit := by
  constructor
  · rfl
  · simp [tmInit, bufInv]

theorem mInv_tmStep {m m2 : TMachine} {c : Char}
    (h : mInv m) (hs : tmStep m c = .ok m2) : mInv m2 := by
  obtain ⟨st, items, buf⟩ := m
  obtain ⟨hitems, hbuf⟩ := h
  simp only at hitems
  cases st <;> simp only [bufInv] at hbuf
  case inText =>
    by_cases hc : c = '$'
    · subst hc
      simp only [tmStep, tmAppend, if_true, eq_self_iff_true, Except.ok.injEq] at hs
      subst hs
      refine ⟨?_, by simp [bufInv]⟩
      by_cases hb : buf.isEmpty <;>
        simp_all [segOK, List.all_append]
    · simp only [tmStep, if_neg hc, Except.ok.injEq] at hs
      subst hs
      refine ⟨hitems, ?_⟩
      simp_all [bufInv]
  case afterDollar =>
    subst hbuf
    by_cases hc : c = '$'
    · subst hc
      simp only [tmStep, tmAppend, if_true, eq_self_iff_true, Except.ok.injEq] at hs
      subst hs
      refine ⟨?_, by simp [bufInv]⟩
      simp_all [segOK, List.all_append]
    · by_cases hb : c = '{'
      · subst hb
        simp only [tmStep, if_neg hc, if_true, eq_self_iff_true, Except.ok.injEq] at hs
        subst hs
        exact ⟨hitems, by simp [bufInv]⟩
      · simp [tmStep, hc, hb] at hs
  case inPlaceholder =>
    by_cases hc : c = '}'
    · subst hc
      simp only [tmStep, tmAppend, if_true, eq_self_iff_true, Except.ok.injEq] at hs
      subst hs
      refine ⟨?_, by simp [bufInv]⟩
      by_cases hb : buf.isEmpty <;>
        simp_all [segOK, List.all_append]
    · simp only [tmStep, if_neg hc, Except.ok.injEq] at hs
      subst hs
      refine ⟨hitems, ?_⟩
      simp_all [bufInv]

theorem mInv_tmRun {cs : List Char} :
    ∀ {m m2 : TMachine}, mInv m → tmRun m cs = .ok m2 → mInv m2 := by
  induction cs with
  | nil => intro m m2 h hr; simp only [tmRun, Except.ok.injEq] at hr; exact hr ▸ h
  | cons c l ih =>
    intro m m2 h hr
    simp only [tmRun] at hr
    cases hstep : tmStep m c with
    | error e => rw [hstep] at hr; exact absurd hr (by simp)
    | ok m1 => rw [hstep] at hr; exact ih (mInv_tmStep h hstep) hr

/-- Every segment the tokenizer emits is well-shaped: non-empty, literal
segments a lone dollar or dollar-free, expression segments brace-free. -/
theorem tokenize_allSegOK {cs : List Char} {items : List Seg}
    (h : tokenizeChars cs = .ok items) : items.all segOK = true := by
  unfold tokenizeChars tokenizeFrom at h
  cases hr : tmRun tmInit cs with
  | error e => rw [hr] at h; exact absurd h (by simp)
  | ok m2 =>
    rw [hr] at h
    have hinv : mInv m2 := mInv_tmRun mInv_init hr
    obtain ⟨st, items2, buf⟩ := m2
    obtain ⟨hitems, hbuf⟩ := hinv
    cases st with
    | inText =>
      simp only [tmFinish, tmAppend, Except.ok.injEq] at h
      subst h
      simp only [bufInv] at hbuf
      simp only at hitems
      by_cases hb : buf.isEmpty <;>
        simp_all [segOK, List.all_append]
    | afterDollar => simp [tmFinish] at h
    | inPlaceholder => simp [tmFinish] at h

/-! ### Round-trip machinery

Running the machine over the serialization of a segment list, block by
block.  `flushItems done buf` is what `_append` leaves in `_items` when the
pending buffer is `buf`. -/

def flushItems (done : List Seg) (buf : List Char) : List Seg :=
  if buf.isEmpty then done else done ++ [⟨.text, buf⟩]

def flushJoin (buf : List Char) (items : List Seg) : List Seg :=
  if buf.isEmpty then items else ⟨.text, buf⟩ :: items

def headNotDF : List Seg → Bool
  | [] => true
  | a :: _ => !dollarFreeText a

theorem tmRun_append (a b : List Char) : ∀ m : TMachine,
    tmRun m (a ++ b) =
      (match tmRun m a with
       | .ok m2 => tmRun m2 b
       | .error e => .error e) := by
  induction a with
  | nil => intro m; simp [tmRun]
  | cons c l ih =>
    intro m
    simp only [List.cons_append, tmRun]
    cases tmStep m c with
    | ok m2 => exact ih m2
    | error e => rfl

theorem noAdjDF_tail {a : Seg} {l : List Seg} (h : noAdjDF (a :: l) = true) :
    noAdjDF l = true := by
  cases l with
  | nil => rfl
  | cons b r => simp only [noAdjDF, Bool.and_eq_true] at h; exact h.2

/-- Dollar-free characters just accumulate in the buffer in the plain-text
state. -/
theorem tmRun_dollarFree (cs : List Char) : ∀ (items : List Seg) (buf : List Char),
    cs.all (fun c => c != '$') = true →
    tmRun ⟨.inText, items, buf⟩ cs = .ok ⟨.inText, items, buf ++ cs⟩ := by
  induction cs with
  | nil => intro items buf _; simp [tmRun]
  | cons c l ih =>
    intro items buf h
    simp only [List.all_cons, Bool.and_eq_true, bne_iff_ne, ne_eq] at h
    simp only [tmRun, tmStep, if_neg h.1]
    rw [ih items (buf ++ [c]) (by simp only [List.all_eq_true] at h ⊢; exact fun x hx => h.2 x hx)]
    simp

/-- Brace-free characters just accumulate in the buffer inside a
placeholder. -/
theorem tmRun_braceFree (cs : List Char) : ∀ (items : List Seg) (buf : List Char),
    cs.all (fun c => c != '}') = true →
    tmRun ⟨.inPlaceholder, items, buf⟩ cs = .ok ⟨.inPlaceholder, items, buf ++ cs⟩ := by
  induction cs with
  | nil => intro items buf _; simp [tmRun]
  | cons c l ih =>
    intro items buf h
    simp only [List.all_cons, Bool.and_eq_true, bne_iff_ne, ne_eq] at h
    simp only [tmRun, tmStep, if_neg h.1]
    rw [ih items (buf ++ [c]) (by simp only [List.all_eq_true] at h ⊢; exact fun x hx => h.2 x hx)]
    simp

/-- Doubling dollars is the identity on dollar-free text. -/
theorem serializeSeg_dollarFree {cs : List Char}
    (h : cs.all (fun c => c != '$') = true) : serializeSeg ⟨.text, cs⟩ = cs := by
  induction cs with
  | nil => rfl
  | cons c l ih =>
    simp only [List.all_cons, Bool.and_eq_true, bne_iff_ne, ne_eq] at h
    simp only [serializeSeg] at ih ⊢
    simp [List.map_cons, if_neg h.1, ih h.2]

theorem serializeSeg_dollar : serializeSeg ⟨.text, ['$']⟩ = ['$', '$'] := rfl

/-- Running the serialization of a lone-dollar literal segment from the
plain-text state: the buffer is flushed, then the segment is re-emitted. -/
theorem tmRun_dollar_block (done : List Seg) (buf : List Char) :
    tmRun ⟨.inText, done, buf⟩ ['$', '$'] =
      .ok ⟨.inText, flushItems done buf ++ [⟨.text, ['$']⟩], []⟩ := by
  simp [tmRun, tmStep, tmAppend, flushItems]

/-- Running the serialization of an expression segment from the plain-text
state: the buffer is flushed, then the expression segment is re-emitted. -/
theorem tmRun_code_block (c : List Char) (done : List Seg) (buf : List Char)
    (hc : c.all (fun ch => ch != '}') = true) (hne : c ≠ []) :
    tmRun ⟨.inText, done, buf⟩ ('$' :: '{' :: (c ++ ['}'])) =
      .ok ⟨.inText, flushItems done buf ++ [⟨.code, c⟩], []⟩ := by
  have h1 : tmStep ⟨.inText, done, buf⟩ '$' =
      .ok ⟨.afterDollar, flushItems done buf, ['$']⟩ := by
    simp [tmStep, tmAppend, flushItems]
  have h2 : tmStep ⟨.afterDollar, flushItems done buf, ['$']⟩ '{' =
      .ok ⟨.inPlaceholder, flushItems done buf, []⟩ := by
    simp [tmStep]
  have h3 : tmStep ⟨.inPlaceholder, flushItems done buf, c⟩ '}' =
      .ok ⟨.inText, flushItems done buf ++ [⟨.code, c⟩], []⟩ := by
    simp [tmStep, tmAppend, hne]
  simp only [tmRun, h1, h2]
  rw [tmRun_append]
  rw [tmRun_braceFree c _ [] hc]
  simp only [List.nil_append, tmRun, h3]

theorem tokenizeFrom_append_ok {m m2 : TMachine} {a : List Char}
    (h : tmRun m a = .ok m2) (b : List Char) :
    tokenizeFrom m (a ++ b) = tokenizeFrom m2 b := by
  unfold tokenizeFrom
  rw [tmRun_append, h]

theorem flush_assoc (done : List Seg) (buf : List Char) (s : Seg) (rest : List Seg) :
    flushItems done buf ++ s :: rest = done ++ flushJoin buf (s :: rest) := by
  by_cases hb : buf.isEmpty <;> simp [flushItems, flushJoin, hb]

theorem flush_nil (done : List Seg) (buf : List Char) :
    flushItems done buf = done ++ flushJoin buf [] := by
  by_cases hb : buf.isEmpty <;> simp [flushItems, flushJoin, hb]

theorem headNotDF_of_noAdjDF {s : Seg} {rest : List Seg}
    (hdf : dollarFreeText s = true) (h : noAdjDF (s :: rest) = true) :
    headNotDF rest = true := by
  cases rest with
  | nil => rfl
  | cons b r =>
    simp only [noAdjDF, Bool.and_eq_true] at h
    have h1 := h.1
    simp only [adjOK, hdf, Bool.true_and, Bool.not_eq_eq_eq_not, Bool.not_true] at h1
    simp [headNotDF, h1]

/-- Re-running the tokenizer over a serialized segment sequence, starting in
the plain-text state with pending buffer `buf`: the buffer merges in front,
and the segments come back unchanged. -/
theorem tokenizeFrom_serialize (items : List Seg) : ∀ (done : List Seg) (buf : List Char),
    items.all segOK = true → noAdjDF items = true →
    buf.all (fun c => c != '$') = true →
    (buf.isEmpty || headNotDF items) = true →
    tokenizeFrom ⟨.inText, done, buf⟩ (serializeSegs items) =
      .ok (done ++ flushJoin buf items) := by
  induction items with
  | nil =>
    intro done buf _ _ _ _
    have hbase : tokenizeFrom ⟨.inText, done, buf⟩ [] = .ok (flushItems done buf) := by
      simp [tokenizeFrom, tmRun, tmFinish, tmAppend, flushItems]
    rw [show serializeSegs [] = [] from rfl, hbase, flush_nil]
  | cons s rest ih =>
    intro done buf hOK hadj hbuf hflush
    obtain ⟨k, cs⟩ := s
    simp only [List.all_cons, Bool.and_eq_true] at hOK
    obtain ⟨hsOK, hrestOK⟩ := hOK
    have hrestAdj : noAdjDF rest = true := noAdjDF_tail hadj
    have hcsne : cs ≠ [] := by
      intro hnil
      subst hnil
      simp [segOK] at hsOK
    cases k with
    | code =>
      have hbrace : cs.all (fun ch => ch != '}') = true := by
        simp only [segOK, Bool.and_eq_true] at hsOK
        exact hsOK.2
      have hser : serializeSegs (⟨.code, cs⟩ :: rest) =
          ('$' :: '{' :: (cs ++ ['}'])) ++ serializeSegs rest := by
        simp [serializeSegs, serializeSeg]
      rw [hser, tokenizeFrom_append_ok (tmRun_code_block cs done buf hbrace hcsne)]
      rw [ih (flushItems done buf ++ [Seg.mk SegKind.code cs]) [] hrestOK hrestAdj (by rfl) (by rfl)]
      rw [show flushJoin [] rest = rest from rfl]
      rw [List.append_assoc, List.singleton_append, flush_assoc]
    | text =>
      by_cases hd : cs = ['$']
      · subst hd
        have hser : serializeSegs (⟨.text, ['$']⟩ :: rest) =
            ['$', '$'] ++ serializeSegs rest := by
          simp [serializeSegs, serializeSeg]
        rw [hser, tokenizeFrom_append_ok (tmRun_dollar_block done buf)]
        rw [ih (flushItems done buf ++ [Seg.mk SegKind.text ['$']]) [] hrestOK hrestAdj (by rfl) (by rfl)]
        rw [show flushJoin [] rest = rest from rfl]
        rw [List.append_assoc, List.singleton_append, flush_assoc]
      · have hdfcs : cs.all (fun c => c != '$') = true := by
          simp only [segOK, Bool.and_eq_true, Bool.or_eq_true] at hsOK
          rcases hsOK.2 with h1 | h1
          · exact absurd (by simpa using h1) hd
          · exact h1
        have hdf : dollarFreeText ⟨.text, cs⟩ = true := by
          simp [dollarFreeText, hdfcs]
        have hbufnil : buf = [] := by
          cases hb : buf.isEmpty with
          | true => simpa [List.isEmpty_iff] using hb
          | false =>
            rw [hb] at hflush
            simp only [Bool.false_or, headNotDF, hdf, Bool.not_true] at hflush
            cases hflush
        subst hbufnil
        have hser : serializeSegs (⟨.text, cs⟩ :: rest) =
            cs ++ serializeSegs rest := by
          simp only [serializeSegs, List.map_cons, List.flatten_cons]
          rw [serializeSeg_dollarFree hdfcs]
        rw [hser, tokenizeFrom_append_ok (tmRun_dollarFree cs done [] hdfcs)]
        simp only [List.nil_append]
        rw [ih done cs hrestOK hrestAdj hdfcs
          (by simp [headNotDF_of_noAdjDF hdf hadj])]
        have hfj : flushJoin cs rest = ⟨.text, cs⟩ :: rest := by
          simp [flushJoin, List.isEmpty_iff, hcsne]
        rw [hfj]
        rfl

/-! ### Claims about the tokenizer -/

/-- C4, counterexample: the claim asserts adjacent same-kind runs are
coalesced, but tokenizing `$$b` yields two adjacent literal segments
(`$` and `b`), exactly as `test_xsc.py` expects for mixed templates. -/
theorem c4_counterexample :
    tokenizeChars ['$', '$', 'b'] =
      .ok [Seg.mk .text ['$'], Seg.mk .text ['b']] ∧
    hasAdjSameKind [Seg.mk .text ['$'], Seg.mk .text ['b']] = true := by
  decide

/-- C4 (amended): the segment sequence produced by the placeholder tokenizer
never contains a segment with empty text; adjacent segments of the same kind
can occur and are not coalesced. -/
theorem c4_segments_never_empty {cs : List Char} {items : List Seg}
    (h : tokenizeChars cs = .ok items) : ∀ s ∈ items, s.chars ≠ [] := by
  intro s hs hnil
  have hall := tokenize_allSegOK h
  rw [List.all_eq_true] at hall
  have h2 := hall s hs
  simp [segOK, hnil] at h2

theorem c4_segments_never_empty_witness : (Seg.mk .text ['a']).chars ≠ [] :=
  @c4_segments_never_empty ['a', '$', '{', 'x', '}']
    [Seg.mk .text ['a'], Seg.mk .code ['x']] rfl
    (Seg.mk .text ['a']) (by decide)

/-- C5, counterexample: the round-trip claim fails as stated.  The accepted
input `a${ }b` (an empty placeholder, written here without the inner space)
tokenizes to two adjacent literal segments `a` and `b`; re-serializing gives
`ab`, which retokenizes to the single literal segment `ab`. -/
theorem c5_counterexample :
    tokenizeChars ['a', '$', '{', '}', 'b'] =
      .ok [Seg.mk .text ['a'], Seg.mk .text ['b']] ∧
    serializeSegs [Seg.mk .text ['a'], Seg.mk .text ['b']] = ['a', 'b'] ∧
    tokenizeChars ['a', 'b'] = .ok [Seg.mk .text ['a', 'b']] ∧
    [Seg.mk .text ['a', 'b']] ≠ [Seg.mk .text ['a'], Seg.mk .text ['b']] := by
  decide

/-- C5 (amended): for every string accepted by the tokenizer whose segment
sequence has no two adjacent dollar-free literal segments (equivalently, in
which no empty placeholder occurred), re-serializing the segments and
retokenizing yields exactly the same segment sequence. -/
theorem c5_roundtrip {cs : List Char} {items : List Seg}
    (h : tokenizeChars cs = .ok items) (hadj : noAdjDF items = true) :
    tokenizeChars (serializeSegs items) = .ok items := by
  have hOK := tokenize_allSegOK h
  have hmain := tokenizeFrom_serialize items [] [] hOK hadj (by rfl) (by rfl)
  rw [show ([] : List Seg) ++ flushJoin [] items = items from by simp [flushJoin]] at hmain
  exact hmain

theorem c5_roundtrip_witness :
    tokenizeChars (serializeSegs [Seg.mk .text ['a'], Seg.mk .code ['x'], Seg.mk .text ['$']]) =
      .ok [Seg.mk .text ['a'], Seg.mk .code ['x'], Seg.mk .text ['$']] :=
  @c5_roundtrip ['a', '$', '{', 'x', '}', '$', '$']
    [Seg.mk .text ['a'], Seg.mk .code ['x'], Seg.mk .text ['$']] rfl (by decide)

/-- C8, counterexample: the empty string contains no dollar sign, is
accepted, and yields zero segments rather than one empty literal segment. -/
theorem c8_counterexample :
    tokenizeChars [] = .ok [] ∧
    ([] : List Seg) ≠ [Seg.mk .text []] := by
  decide

/-- C8 (amended): every non-empty string containing no dollar sign
tokenizes to exactly one literal segment equal to the input; the empty
string tokenizes to zero segments. -/
theorem c8_dollar_free_single_literal {cs : List Char} (hne : cs ≠ [])
    (hdf : cs.all (fun c => c != '$') = true) :
    tokenizeChars cs = .ok [Seg.mk .text cs] := by
  unfold tokenizeChars tokenizeFrom tmInit
  rw [tmRun_dollarFree cs [] [] hdf]
  simp [tmFinish, tmAppend, List.isEmpty_iff, hne]

theorem c8_dollar_free_single_literal_witness :
    tokenizeChars ['h', 'i'] = .ok [Seg.mk .text ['h', 'i']] :=
  c8_dollar_free_single_literal (by decide) (by decide)

/-! ## Placeholder evaluation (`_InlineTemplate.eval`)

The Python `globals()` dictionary is modeled as an association list with
dictionary semantics; host values are a small closed universe; the host
`eval` is an explicit oracle returning either a value or a host exception.
Host expression evaluation is modeled as effect-free on the dictionary. -/

inductive PyVal where
  | str (s : String)
  | pyBool (b : Bool)
  | pyNone
  | vars (names : List String) (vals : List String)
deriving DecidableEq, Repr

abbrev Env := List (String × PyVal)

def envGet : Env → String → Option PyVal
  | [], _ => none
  | (k2, v) :: rest, k => if k2 = k then some v else envGet rest k

/-- Removal of every entry under a key: the dictionary effect of `del`
and the key-uniqueness side of assignment. -/
def envRemove : Env → String → Env
  | [], _ => []
  | (k2, v) :: rest, k => if k2 = k then envRemove rest k else (k2, v) :: envRemove rest k

def envSet (env : Env) (k : String) (v : PyVal) : Env :=
  (k, v) :: envRemove env k

/-- Errors surfaced by the engine: the wrapped `XscValueError`, the raw
`UnboundLocalError` escaping `_possibleVariableName`, dictionary `KeyError`,
a host exception propagating uncaught, and Python `assert` failure. -/
inductive EngineErr where
  | xscValueError (expr : String) (detail : String)
  | unboundLocalError
  | keyError (k : String)
  | uncaught (message : String)
  | assertionError
deriving DecidableEq, Repr

/-- `del env[k]`: a `KeyError` when the key is absent. -/
def envDel (env : Env) (k : String) : Except EngineErr Env :=
  match envGet env k with
  | none => .error (.keyError k)
  | some _ => .ok (envRemove env k)

/-- Exceptions the host evaluator can raise, keeping only the distinction
`eval` inspects: `AttributeError` (with its message) versus everything
else. -/
inductive HostErr where
  | attributeError (message : String)
  | otherError (message : String)
deriving DecidableEq, Repr

def hostMessage : HostErr → String
  | .attributeError m => m
  | .otherError m => m

/-! ### The `attributeErrorRegEx` match

Model of `re.match` for the anchored pattern
`\'(?P<className>[a-zA-Z_][a-zA-Z0-9_]*)\'.+\'(?P<attributeName>[a-zA-Z_][a-zA-Z0-9_]*)\'`:
a quoted name at the start, then at least one non-newline character
(greedy), then a quoted name. -/

def quoteChar : Char := Char.ofNat 39

def isNameStartChar (c : Char) : Bool := c.isAlpha || c == '_'

def isNameChar (c : Char) : Bool := c.isAlphanum || c == '_'

/-- A maximal `[a-zA-Z_][a-zA-Z0-9_]*` run at the head of the input. -/
def takeNameRun : List Char → Option (List Char × List Char)
  | [] => none
  | c :: rest =>
    if isNameStartChar c then
      some (c :: rest.takeWhile isNameChar, rest.dropWhile isNameChar)
    else none

/-- A quoted name at the head of the input. -/
def matchQuotedName (cs : List Char) : Option (List Char × List Char) :=
  match cs with
  | c :: rest =>
    if c == quoteChar then
      match takeNameRun rest with
      | some (name, c2 :: rest2) =>
        if c2 == quoteChar then some (name, rest2) else none
      | _ => none
    else none
  | [] => none

/-- The greedy `.+\'name\'` tail: try the longest non-newline gap first. -/
def findAttrFrom (cs : List Char) : Nat → Option (List Char)
  | 0 => none
  | i + 1 =>
    match
      (if (cs.take (i + 1)).all (fun c => c != Char.ofNat 10) then
        match matchQuotedName (cs.drop (i + 1)) with
        | some (name, _) => some name
        | none => none
      else none)
    with
    | some name => some name
    | none => findAttrFrom cs i

def findAttr (cs : List Char) : Option (List Char) := findAttrFrom cs cs.length

def attributeErrorRegExMatch (cs : List Char) : Option (List Char × List Char) :=
  match matchQuotedName cs with
  | some (className, rest) =>
    match findAttr rest with
    | some attrName => some (className, attrName)
    | none => none
  | none => none

/-- `_InlineTemplate._possibleVariableName`: the local `result` is assigned
only when the regular expression matches and the class name is
`_Variables`; on every other path the final `return result` raises
`UnboundLocalError`, modeled as the error branch. -/
def possibleVariableName (message : String) : Except EngineErr String :=
  match attributeErrorRegExMatch message.data with
  | some (className, attrName) =>
    if String.mk className == "_Variables" then .ok (String.mk attrName)
    else .error .unboundLocalError
  | none => .error .unboundLocalError

/-- The `unicode(...)` coercion applied to a non-string evaluation result. -/
def pyToText : PyVal → String
  | .str s => s
  | .pyBool true => "True"
  | .pyBool false => "False"
  | .pyNone => "None"
  | .vars _ _ => "_Variables instance"

/-- The guard at the top of `eval`: install an empty `_Variables` dump when
none is bound. -/
def envEnsureVars (env : Env) : Env :=
  if envGet env "_xscVariables" = none then envSet env "_xscVariables" (.vars [] []) else env

abbrev EvalFn := String → Env → Except HostErr PyVal

/-- One iteration of the item loop of `_InlineTemplate.eval`. -/
def inlineEvalStep (ef : EvalFn) (acc : String × Env) (item : Seg) :
    Except EngineErr (String × Env) :=
  match item.kind with
  | .code =>
    let exprText := String.mk item.chars
    match ef exprText acc.2 with
    | .ok v => .ok (acc.1 ++ pyToText v, acc.2)
    | .error e =>
      match e with
      | .attributeError msg =>
        match possibleVariableName msg with
        | .ok name =>
          .error (.xscValueError exprText ("cannot find column " ++ name))
        | .error crash => .error crash
      | .otherError msg => .error (.xscValueError exprText msg)
  | .text => .ok (acc.1 ++ String.mk item.chars, acc.2)

/-- `_InlineTemplate.eval`: ensure `_xscVariables` is bound, then concatenate
literal text and evaluated expression results, wrapping host failures. -/
def inlineEval (ef : EvalFn) (items : List Seg) (env : Env) :
    Except EngineErr (String × Env) :=
  items.foldlM (inlineEvalStep ef) ("", envEnsureVars env)

/-! ### Claims about placeholder evaluation -/

/-- The Python 2 message of an `AttributeError` for `[].foo`: a quoted class
name other than `_Variables`, followed by a quoted attribute name. -/
def listFooMessage : String :=
  String.mk ([quoteChar] ++ "list".data ++ [quoteChar] ++
    " object has no attribute ".data ++ [quoteChar] ++ "foo".data ++ [quoteChar])

/-- C3: the claim says every expression failure, including attribute errors
on arbitrary objects, is re-raised as `XscValueError`.  The code disagrees:
for an `AttributeError` whose class name is not `_Variables`,
`_possibleVariableName` reaches `return result` with `result` never
assigned, and the resulting `UnboundLocalError` escapes `eval` instead of
any `XscValueError` — contradicting the docstring of
`_possibleVariableName`, which promises `None` in that case. -/
theorem c3_attribute_error_escapes_eval :
    inlineEval (fun _ _ => .error (.attributeError listFooMessage))
        [Seg.mk .code "[].foo".data] [] = .error .unboundLocalError ∧
    ∀ expr detail,
      (Except.error EngineErr.unboundLocalError : Except EngineErr (String × Env)) ≠
        .error (.xscValueError expr detail) := by
  constructor
  · decide
  · intro expr detail h
    cases h

/-- C10: tokenizing the empty string succeeds with zero segments (not one
empty literal segment), and evaluating the resulting empty template yields
the empty text string under every host evaluator and environment. -/
theorem c10_empty_template_evaluates_empty :
    tokenizeChars [] = .ok [] ∧
    ∀ (ef : EvalFn) (env : Env), inlineEval ef [] env = .ok ("", envEnsureVars env) :=
  ⟨rfl, fun _ _ => rfl⟩

/-! ## Execution engine (`XscNode.write` and subclasses)

The compiled template node tree, and the depth-first `write` traversal.
The writer collaborator is modeled as the emitted event list; `exec` of a
code block is an oracle transforming the dictionary.  The per-row
`_Variables` object is modeled by value: `setNamesAndValues` with the
constant per-source field-name list makes the object state a function of
the current row. -/

structure Source where
  fieldNames : List String
  data : List (List String)
deriving DecidableEq, Repr

abbrev SrcMap := List (String × Source)

def srcLookup (sm : SrcMap) (k : String) : Option Source :=
  match sm.find? (fun p => p.1 == k) with
  | some p => some p.2
  | none => none

inductive Event where
  | startTag (name : String) (attrs : List (String × String))
  | endTag (name : String)
  | textEvent (s : String)
  | commentEvent (s : String)
  | addNamespace (nsName : String) (uri : String)
deriving DecidableEq, Repr

abbrev ExecFn := String → Env → Except HostErr Env

/-- Python truthiness of the modeled host values, as used by
`if conditionFulfilled`. -/
def pyTruthy : PyVal → Bool
  | .str s => !s.isEmpty
  | .pyBool b => b
  | .pyNone => false
  | .vars _ _ => true

inductive XNode where
  | element (tag : String) (attrTemplates : List (String × List Seg)) (children : List XNode)
  | textNode (tpl : List Seg)
  | commentNode (data : String)
  | forNode (rider : String) (children : List XNode)
  | ifNode (condition : String) (children : List XNode)
  | pythonNode (code : String)
deriving Repr

/-- `processedAttributes[name] = value` on the attribute dictionary. -/
def attrsSet (ps : List (String × String)) (k : String) (v : String) :
    List (String × String) :=
  ps.filter (fun p => p.1 != k) ++ [(k, v)]

/-- The attribute loop of `ElementNode.write`: evaluate each attribute value
template in order, route `xmlns`/`xmlns:`-prefixed attributes to namespace
declarations, collect the rest. -/
def evalAttrs (ef : EvalFn) :
    List (String × List Seg) → List Event × List (String × String) × Env →
    Except EngineErr (List Event × List (String × String) × Env)
  | [], acc => .ok acc
  | (name, tpl) :: rest, (evs, ps, env) =>
    match inlineEval ef tpl env with
    | .error e => .error e
    | .ok (value, env2) =>
      if name == "xmlns" then
        evalAttrs ef rest (evs ++ [.addNamespace "" value], ps, env2)
      else if "xmlns:".isPrefixOf name then
        evalAttrs ef rest (evs ++ [.addNamespace (name.drop 6) value], ps, env2)
      else
        evalAttrs ef rest (evs, attrsSet ps name value, env2)

mutual

/-- `write` of one template node. -/
def writeNode (ef : EvalFn) (xf : ExecFn) (sm : SrcMap) (n : XNode) (env : Env) :
    Except EngineErr (List Event × Env) :=
  match n with
  | .textNode tpl =>
    match inlineEval ef tpl env with
    | .error e => .error e
    | .ok (s, env2) => .ok ([.textEvent s], env2)
  | .commentNode d => .ok ([.commentEvent d], env)
  | .pythonNode code =>
    match xf code env with
    | .ok env2 => .ok ([], env2)
    | .error e => .error (.uncaught (hostMessage e))
  | .ifNode cond children =>
    if children.isEmpty then .ok ([], env)
    else
      match ef cond env with
      | .error e => .error (.uncaught (hostMessage e))
      | .ok v =>
        if pyTruthy v then writeList ef xf sm children env
        else .ok ([], env)
  | .forNode rider children =>
    match srcLookup sm rider with
    | none => .error (.keyError rider)
    | some source => forRows ef xf sm rider children source.fieldNames source.data [] env
  | .element tag attrTemplates children =>
    match evalAttrs ef attrTemplates ([], [], env) with
    | .error e => .error e
    | .ok (nsEvents, processed, env2) =>
      match writeList ef xf sm children env2 with
      | .error e => .error e
      | .ok (cevs, env3) =>
        .ok (nsEvents ++ .startTag tag processed :: (cevs ++ [.endTag tag]), env3)
termination_by (2 * sizeOf n, 0)

/-- The child loops `for xscNode in self.childNodes`. -/
def writeList (ef : EvalFn) (xf : ExecFn) (sm : SrcMap) (ns : List XNode) (env : Env) :
    Except EngineErr (List Event × Env) :=
  match ns with
  | [] => .ok ([], env)
  | n :: rest =>
    match writeNode ef xf sm n env with
    | .error e => .error e
    | .ok (evs, env2) =>
      match writeList ef xf sm rest env2 with
      | .error e => .error e
      | .ok (evs2, env3) => .ok (evs ++ evs2, env3)
termination_by (2 * sizeOf ns, 0)

/-- The row loop of `XscForNode.write`: per row, save the previous
`_xscVariables`, bind the row view under `_xscVariables` and the rider
name, traverse the children, delete the rider binding, then restore or
delete `_xscVariables`. -/
def forRows (ef : EvalFn) (xf : ExecFn) (sm : SrcMap) (rider : String)
    (children : List XNode) (fieldNames : List String)
    (rows : List (List String)) (evs : List Event) (env : Env) :
    Except EngineErr (List Event × Env) :=
  match rows with
  | [] => .ok (evs, env)
  | row :: rest =>
    if fieldNames.isEmpty then .error .assertionError
    else if row.isEmpty then .error .assertionError
    else if row.length != fieldNames.length then .error .assertionError
    else
      let rowView := PyVal.vars fieldNames row
      let oldVariables := envGet env "_xscVariables"
      let env2 := envSet (envSet env "_xscVariables" rowView) rider rowView
      match
        (if children.isEmpty then Except.ok (([] : List Event), env2)
         else writeList ef xf sm children env2)
      with
      | .error e => .error e
      | .ok (cevs, env3) =>
        match envDel env3 rider with
        | .error e => .error e
        | .ok env4 =>
          match
            (match oldVariables with
             | some v => Except.ok (envSet env4 "_xscVariables" v)
             | none => envDel env4 "_xscVariables")
          with
          | .error e => .error e
          | .ok env5 => forRows ef xf sm rider children fieldNames rest (evs ++ cevs) env5
termination_by (2 * sizeOf children + 1, rows.length)

end

/-! ### Dictionary lemmas -/

theorem envGet_envSet_same (env : Env) (k : String) (v : PyVal) :
    envGet (envSet env k v) k = some v := by
  simp [envGet, envSet]

theorem envGet_envRemove_same (env : Env) (k : String) :
    envGet (envRemove env k) k = none := by
  induction env with
  | nil => rfl
  | cons a rest ih =>
    obtain ⟨k2, v⟩ := a
    by_cases h : k2 = k <;> simp [envRemove, envGet, h, ih]

theorem envGet_envRemove_other (env : Env) {k k2 : String} (h : k2 ≠ k) :
    envGet (envRemove env k) k2 = envGet env k2 := by
  have h2 : k ≠ k2 := fun hq => h hq.symm
  induction env with
  | nil => rfl
  | cons a rest ih =>
    obtain ⟨k3, v⟩ := a
    by_cases h3 : k3 = k
    · simp [envRemove, envGet, h3, h2, ih]
    · by_cases h4 : k3 = k2 <;> simp [envRemove, envGet, h3, h4, h, h2, ih]

theorem envGet_envSet_other (env : Env) {k k2 : String} (v : PyVal) (h : k2 ≠ k) :
    envGet (envSet env k v) k2 = envGet env k2 := by
  have h2 : k ≠ k2 := fun hq => h hq.symm
  simp [envSet, envGet, h2, envGet_envRemove_other env h]

theorem envDel_present {env : Env} {k : String} {v : PyVal} (h : envGet env k = some v) :
    envDel env k = .ok (envRemove env k) := by
  unfold envDel
  rw [h]

/-! ### One row of `XscForNode.write` without children -/

/-- The dictionary left behind by a single iteration of the row loop of
`XscForNode.write` when the For node has no children: bind `_xscVariables`
and the rider to the row view, delete the rider, then restore or delete
`_xscVariables`.  Proof-support abbreviation for the step inside
`forRows`. -/
def forStepEnv (rider : String) (fieldNames row : List String) (env : Env) : Env :=
  let rowView := PyVal.vars fieldNames row
  let env4 := envRemove (envSet (envSet env "_xscVariables" rowView) rider rowView) rider
  match envGet env "_xscVariables" with
  | some v => envSet env4 "_xscVariables" v
  | none => envRemove env4 "_xscVariables"

theorem forStepEnv_eq_some {rider : String} {fieldNames row : List String} {env : Env}
    {v : PyVal} (hold : envGet env "_xscVariables" = some v) :
    forStepEnv rider fieldNames row env =
      envSet (envRemove (envSet (envSet env "_xscVariables" (PyVal.vars fieldNames row))
        rider (PyVal.vars fieldNames row)) rider) "_xscVariables" v := by
  simp only [forStepEnv, hold]

theorem forStepEnv_eq_none {rider : String} {fieldNames row : List String} {env : Env}
    (hold : envGet env "_xscVariables" = none) :
    forStepEnv rider fieldNames row env =
      envRemove (envRemove (envSet (envSet env "_xscVariables" (PyVal.vars fieldNames row))
        rider (PyVal.vars fieldNames row)) rider) "_xscVariables" := by
  simp only [forStepEnv, hold]

theorem forRows_childless_step (ef : EvalFn) (xf : ExecFn) (sm : SrcMap)
    (rider : String) (fieldNames row : List String) (rest : List (List String))
    (evs : List Event) (env : Env)
    (hnames : fieldNames ≠ []) (hrowne : row ≠ [])
    (hrowlen : row.length = fieldNames.length) (hr : rider ≠ "_xscVariables") :
    forRows ef xf sm rider [] fieldNames (row :: rest) evs env =
      forRows ef xf sm rider [] fieldNames rest evs (forStepEnv rider fieldNames row env) := by
  have hxv : ("_xscVariables" : String) ≠ rider := fun hq => hr hq.symm
  have g1 : fieldNames.isEmpty = false := by simp [List.isEmpty_iff, hnames]
  have g2 : row.isEmpty = false := by simp [List.isEmpty_iff, hrowne]
  have g3 : (row.length != fieldNames.length) = false := by simp [hrowlen]
  rw [forRows]
  simp only [g1, g2, g3, Bool.false_eq_true, if_false, List.isEmpty_nil, if_true]
  rw [envDel_present (envGet_envSet_same _ _ _)]
  cases hold : envGet env "_xscVariables" with
  | some v =>
    simp only [forStepEnv_eq_some hold, List.append_nil]
  | none =>
    have hget4 : envGet
        (envRemove (envSet (envSet env "_xscVariables" (PyVal.vars fieldNames row))
          rider (PyVal.vars fieldNames row)) rider) "_xscVariables" =
        some (PyVal.vars fieldNames row) := by
      rw [envGet_envRemove_other _ hxv, envGet_envSet_other _ _ hxv, envGet_envSet_same]
    simp only [envDel_present hget4, forStepEnv_eq_none hold, List.append_nil]

theorem forStepEnv_get_other (rider : String) (fieldNames row : List String)
    (env : Env) {k : String} (hk : k ≠ rider) :
    envGet (forStepEnv rider fieldNames row env) k = envGet env k := by
  cases hold : envGet env "_xscVariables" with
  | some v =>
    rw [forStepEnv_eq_some hold]
    by_cases hkxv : k = "_xscVariables"
    · subst hkxv
      rw [envGet_envSet_same, hold]
    · rw [envGet_envSet_other _ _ hkxv, envGet_envRemove_other _ hk,
        envGet_envSet_other _ _ hk, envGet_envSet_other _ _ hkxv]
  | none =>
    rw [forStepEnv_eq_none hold]
    by_cases hkxv : k = "_xscVariables"
    · subst hkxv
      rw [envGet_envRemove_same, hold]
    · rw [envGet_envRemove_other _ hkxv, envGet_envRemove_other _ hk,
        envGet_envSet_other _ _ hk, envGet_envSet_other _ _ hkxv]

theorem forStepEnv_get_rider (rider : String) (fieldNames row : List String)
    (env : Env) (hr : rider ≠ "_xscVariables") :
    envGet (forStepEnv rider fieldNames row env) rider = none := by
  cases hold : envGet env "_xscVariables" with
  | some v =>
    rw [forStepEnv_eq_some hold, envGet_envSet_other _ _ hr, envGet_envRemove_same]
  | none =>
    rw [forStepEnv_eq_none hold, envGet_envRemove_other _ hr, envGet_envRemove_same]

/-- Running every row of a childless For directive: no events, the rider
ends up deleted, everything else reads as before. -/
theorem forRows_childless (ef : EvalFn) (xf : ExecFn) (sm : SrcMap) (rider : String)
    (fieldNames : List String) (hnames : fieldNames ≠ []) (hr : rider ≠ "_xscVariables") :
    ∀ (rows : List (List String)) (env : Env) (evs : List Event),
      (∀ row ∈ rows, row.length = fieldNames.length) →
      ∃ env2, forRows ef xf sm rider [] fieldNames rows evs env = .ok (evs, env2) ∧
        (∀ k, k ≠ rider → envGet env2 k = envGet env k) ∧
        (rows = [] → env2 = env) ∧
        (rows ≠ [] → envGet env2 rider = none) := by
  intro rows
  induction rows with
  | nil =>
    intro env evs _
    exact ⟨env, by rw [forRows], fun _ _ => rfl, fun _ => rfl, fun h => absurd rfl h⟩
  | cons row rest ih =>
    intro env evs halign
    have hrowlen : row.length = fieldNames.length := halign row (by simp)
    have hrowne : row ≠ [] := by
      intro h0
      rw [h0] at hrowlen
      exact hnames (List.length_eq_zero.mp hrowlen.symm)
    obtain ⟨env6, hok6, hpt6, hnil6, hrid6⟩ :=
      ih (forStepEnv rider fieldNames row env) evs
        (fun r2 hmem => halign r2 (by simp [hmem]))
    refine ⟨env6, ?_, ?_, ?_, ?_⟩
    · rw [forRows_childless_step ef xf sm rider fieldNames row rest evs env
        hnames hrowne hrowlen hr, hok6]
    · intro k hk
      rw [hpt6 k hk, forStepEnv_get_other rider fieldNames row env hk]
    · intro h0
      cases h0
    · intro _
      cases hrest : rest with
      | nil =>
        rw [hrest] at hnil6
        rw [hnil6 rfl]
        exact forStepEnv_get_rider rider fieldNames row env hr
      | cons b r2 =>
        apply hrid6
        rw [hrest]
        simp

theorem envDel_ok_eq {env : Env} {k : String} {env2 : Env}
    (h : envDel env k = .ok env2) : env2 = envRemove env k := by
  unfold envDel at h
  split at h
  · exact absurd h (by simp)
  · injection h with h2
    exact h2.symm

/-! ### One row of `XscForNode.write` with children

The same iteration step, but with the children traversal left abstract:
after the children have run, the rider binding is deleted and the saved
`_xscVariables` restored, whatever the children did to the dictionary. -/

/-- The tail of one row iteration of `XscForNode.write` after the children
have been traversed: delete the rider binding, restore or delete
`_xscVariables`, then continue with the remaining rows.  Proof-support
abbreviation naming the continuation inside `forRows`. -/
def forIterContinue (ef : EvalFn) (xf : ExecFn) (sm : SrcMap) (rider : String)
    (children : List XNode) (fieldNames : List String) (oldVariables : Option PyVal)
    (rest : List (List String)) (evs : List Event) :
    List Event × Env → Except EngineErr (List Event × Env) :=
  fun res =>
    match envDel res.2 rider with
    | .error e => .error e
    | .ok env4 =>
      match
        (match oldVariables with
         | some v => Except.ok (envSet env4 "_xscVariables" v)
         | none => envDel env4 "_xscVariables")
      with
      | .error e => .error e
      | .ok env5 => forRows ef xf sm rider children fieldNames rest (evs ++ res.1) env5

/-- Unfolding one row of a For directive with a non-empty body: the child
nodes are traversed in the environment that binds both `_xscVariables` and
the rider name to the current row view. -/
theorem forRows_step_children (ef : EvalFn) (xf : ExecFn) (sm : SrcMap)
    (rider : String) (children : List XNode) (fieldNames row : List String)
    (rest : List (List String)) (evs : List Event) (env : Env)
    (hnames : fieldNames ≠ []) (hrow : row ≠ [])
    (hlen : row.length = fieldNames.length) (hch : children ≠ []) :
    forRows ef xf sm rider children fieldNames (row :: rest) evs env =
      match writeList ef xf sm children
          (envSet (envSet env "_xscVariables" (PyVal.vars fieldNames row)) rider
            (PyVal.vars fieldNames row)) with
      | .error e => .error e
      | .ok res => forIterContinue ef xf sm rider children fieldNames
          (envGet env "_xscVariables") rest evs res := by
  have g1 : fieldNames.isEmpty = false := by simp [List.isEmpty_iff, hnames]
  have g2 : row.isEmpty = false := by simp [List.isEmpty_iff, hrow]
  have g3 : (row.length != fieldNames.length) = false := by simp [hlen]
  have g4 : children.isEmpty = false := by simp [List.isEmpty_iff, hch]
  rw [forRows]
  simp only [g1, g2, g3, g4, Bool.false_eq_true, if_false]
  cases hw : writeList ef xf sm children
      (envSet (envSet env "_xscVariables" (PyVal.vars fieldNames row)) rider
        (PyVal.vars fieldNames row)) with
  | error e => simp only [hw]
  | ok res =>
    obtain ⟨cevs, env3⟩ := res
    simp only [hw, forIterContinue]

theorem forRows_finish_rider_none {rider : String} (hr : rider ≠ "_xscVariables")
    {oldV : Option PyVal} {env3 env4 env5 : Env}
    (heq4 : envDel env3 rider = .ok env4)
    (heq5 : (match oldV with
             | some v => Except.ok (envSet env4 "_xscVariables" v)
             | none => envDel env4 "_xscVariables") = .ok env5) :
    envGet env5 rider = none := by
  have henv4 : env4 = envRemove env3 rider := envDel_ok_eq heq4
  cases oldV with
  | some v =>
    injection heq5 with h5
    rw [← h5, envGet_envSet_other _ _ hr, henv4, envGet_envRemove_same]
  | none =>
    have henv5 := envDel_ok_eq heq5
    rw [henv5, envGet_envRemove_other _ hr, henv4, envGet_envRemove_same]

/-- Whenever the row loop of a For directive finishes successfully over at
least one row — whatever its children, and whatever they did to the
dictionary — the final environment has no binding under the rider name:
the loop body always ends with `del globals()[self.rider]` followed only by
the `_xscVariables` restore. -/
theorem forRows_ok_rider_none (ef : EvalFn) (xf : ExecFn) (sm : SrcMap)
    (rider : String) (children : List XNode) (fieldNames : List String)
    (hr : rider ≠ "_xscVariables") :
    ∀ (rows : List (List String)) (evs : List Event) (env : Env)
      (out : List Event) (env2 : Env),
      forRows ef xf sm rider children fieldNames rows evs env = .ok (out, env2) →
      (rows ≠ [] → envGet env2 rider = none) ∧ (rows = [] → env2 = env) := by
  intro rows
  induction rows with
  | nil =>
    intro evs env out env2 h
    rw [forRows] at h
    simp only [Except.ok.injEq, Prod.mk.injEq] at h
    exact ⟨fun hne => absurd rfl hne, fun _ => h.2.symm⟩
  | cons row rest ih =>
    intro evs env out env2 h
    rw [forRows] at h
    split at h
    · exact absurd h (by simp)
    split at h
    · exact absurd h (by simp)
    split at h
    · exact absurd h (by simp)
    split at h
    case _ hch =>
      simp only [] at h
      split at h
      · exact absurd h (by simp)
      case _ env4 heq4 =>
        split at h
        · exact absurd h (by simp)
        case _ env5 heq5 =>
          have hIH := ih _ env5 out env2 h
          refine ⟨fun _ => ?_, fun h0 => absurd h0 (by simp)⟩
          cases hrest : rest with
          | nil =>
            rw [hrest] at hIH
            rw [hIH.2 rfl]
            exact forRows_finish_rider_none hr heq4 heq5
          | cons b r2 =>
            rw [hrest] at hIH
            exact hIH.1 (by simp)
    case _ hch =>
      simp only [] at h
      split at h
      · exact absurd h (by simp)
      case _ cevs env3 heq3 =>
        split at h
        · exact absurd h (by simp)
        case _ env4 heq4 =>
          split at h
          · exact absurd h (by simp)
          case _ env5 heq5 =>
            have hIH := ih _ env5 out env2 h
            refine ⟨fun _ => ?_, fun h0 => absurd h0 (by simp)⟩
            cases hrest : rest with
            | nil =>
              rw [hrest] at hIH
              rw [hIH.2 rfl]
              exact forRows_finish_rider_none hr heq4 heq5
            | cons b r2 =>
              rw [hrest] at hIH
              exact hIH.1 (by simp)

/-! ### Claims about the execution engine -/

/-- C2, counterexample: a binding already present under the rider name is
not restored after the For directive finishes.  With `r` bound before the
loop, running a one-row childless `For r` ends with `r` absent from the
dictionary: `del globals()[self.rider]` deletes it, nothing restores it. -/
theorem c2_counterexample :
    writeNode (fun _ _ => .ok .pyNone) (fun _ e => .ok e) [("r", ⟨["f"], [["x"]]⟩)]
        (.forNode "r" []) [("r", .str "before")] = .ok ([], []) ∧
    envGet [("r", .str "before")] "r" = some (.str "before") ∧
    envGet ([] : Env) "r" = none := by
  refine ⟨?_, rfl, rfl⟩
  simp [writeNode, writeList, forRows, srcLookup, envGet, envSet, envRemove,
    envDel, List.find?]

/-- C2 (amended): each iteration step of a For directive binds the row view
under the rider name, shadowing any prior binding, and the child nodes are
traversed in exactly that environment; but when the For directive finishes
successfully over at least one row — whatever its children — the rider
name is deleted from the binding environment, not restored to its prior
value.  For a For node without children, additionally, every other name
(including the saved `_xscVariables` dump) reads exactly as before. -/
theorem c2_for_binds_and_deletes_rider (ef : EvalFn) (xf : ExecFn) (sm : SrcMap)
    (rider : String) (src : Source) (children : List XNode) (env : Env)
    (row : List String) (rest : List (List String))
    (hsrc : srcLookup sm rider = some src)
    (hdata : src.data = row :: rest)
    (hnames : src.fieldNames ≠ [])
    (halign : ∀ r2 ∈ src.data, r2.length = src.fieldNames.length)
    (hr : rider ≠ "_xscVariables") :
    (envGet (envSet (envSet env "_xscVariables" (PyVal.vars src.fieldNames row)) rider
        (PyVal.vars src.fieldNames row)) rider = some (PyVal.vars src.fieldNames row)) ∧
    (children ≠ [] →
      writeNode ef xf sm (.forNode rider children) env =
        match writeList ef xf sm children
            (envSet (envSet env "_xscVariables" (PyVal.vars src.fieldNames row)) rider
              (PyVal.vars src.fieldNames row)) with
        | .error e => .error e
        | .ok res => forIterContinue ef xf sm rider children src.fieldNames
            (envGet env "_xscVariables") rest [] res) ∧
    (∀ out env2, writeNode ef xf sm (.forNode rider children) env = .ok (out, env2) →
      envGet env2 rider = none) ∧
    (children = [] →
      ∃ env2, writeNode ef xf sm (.forNode rider children) env = .ok ([], env2) ∧
        envGet env2 rider = none ∧
        ∀ k, k ≠ rider → envGet env2 k = envGet env k) := by
  have hlen : row.length = src.fieldNames.length := halign row (by rw [hdata]; simp)
  have hrow : row ≠ [] := by
    intro h0
    rw [h0] at hlen
    exact hnames (List.length_eq_zero.mp hlen.symm)
  refine ⟨envGet_envSet_same _ _ _, ?_, ?_, ?_⟩
  · intro hch
    rw [writeNode]
    simp only [hsrc, hdata]
    exact forRows_step_children ef xf sm rider children src.fieldNames row rest [] env
      hnames hrow hlen hch
  · intro out env2 hok
    rw [writeNode] at hok
    simp only [hsrc] at hok
    have hres := forRows_ok_rider_none ef xf sm rider children src.fieldNames hr
      src.data [] env out env2 hok
    exact hres.1 (by rw [hdata]; simp)
  · intro hch
    subst hch
    obtain ⟨env2, hok, hother, -, hrid⟩ :=
      forRows_childless ef xf sm rider src.fieldNames hnames hr src.data env [] halign
    refine ⟨env2, ?_, hrid (by rw [hdata]; simp), hother⟩
    rw [writeNode]
    simp only [hsrc]
    exact hok

theorem c2_for_binds_and_deletes_rider_witness :
    (envGet (envSet (envSet [("r", PyVal.str "before")] "_xscVariables"
        (PyVal.vars ["f"] ["x"])) "r" (PyVal.vars ["f"] ["x"])) "r" =
      some (PyVal.vars ["f"] ["x"])) ∧
    envGet ([] : Env) "r" = none :=
  ⟨(c2_for_binds_and_deletes_rider (fun _ _ => .ok .pyNone) (fun _ e => .ok e)
      [("r", ⟨["f"], [["x"]]⟩)] "r" ⟨["f"], [["x"]]⟩ [.commentNode "c"]
      [("r", PyVal.str "before")] ["x"] [] rfl rfl (by simp) (by simp) (by simp)).1,
   (c2_for_binds_and_deletes_rider (fun _ _ => .ok .pyNone) (fun _ e => .ok e)
      [("r", ⟨["f"], [["x"]]⟩)] "r" ⟨["f"], [["x"]]⟩ [.commentNode "c"]
      [("r", PyVal.str "before")] ["x"] [] rfl rfl (by simp) (by simp) (by simp)).2.2.1
     [Event.commentEvent "c"] []
     (by simp [writeNode, writeList, forRows, srcLookup, envGet, envSet, envRemove,
       envDel, List.find?])⟩

/-- C6: an If node with children whose condition evaluates falsy writes no
events and leaves the binding environment untouched (children, including
code blocks, never run — the exec oracle is arbitrary); an If node without
children never consults the host evaluator at all (the result is the same
for every evaluator, including ones that always raise). -/
theorem c6_if_falsy_or_childless (ef : EvalFn) (xf : ExecFn) (sm : SrcMap)
    (cond : String) (children : List XNode) (env : Env) :
    (writeNode ef xf sm (.ifNode cond []) env = .ok ([], env)) ∧
    (∀ v, children ≠ [] → ef cond env = .ok v → pyTruthy v = false →
      writeNode ef xf sm (.ifNode cond children) env = .ok ([], env)) := by
  constructor
  · rw [writeNode]
    simp
  · intro v hne hev hfalse
    rw [writeNode]
    simp [List.isEmpty_iff, hne, hev, hfalse]

theorem c6_if_falsy_or_childless_witness :
    writeNode (fun _ _ => .ok (.pyBool false)) (fun _ e => .ok (("x", PyVal.pyNone) :: e))
        [] (.ifNode "cond" [.pythonNode "x = 1"]) [] = .ok ([], []) :=
  (c6_if_falsy_or_childless (fun _ _ => .ok (.pyBool false))
    (fun _ e => .ok (("x", PyVal.pyNone) :: e)) [] "cond" [.pythonNode "x = 1"] []).2
    (.pyBool false) (by simp) rfl rfl

/-- C7: re-entrant iteration over the same rider name is not flagged as a
structural error.  Nesting `For r` directly inside `For r` over a one-row
source makes the inner loop delete the rider binding, so the outer loop's
own `del globals()[self.rider]` raises a raw `KeyError` — no `XscError` of
any kind is produced, confirming the unimplemented TODO in
`XscForNode.write`. -/
theorem c7_nested_same_rider_raises_key_error :
    writeNode (fun _ _ => .ok .pyNone) (fun _ e => .ok e) [("r", ⟨["f"], [["a"]]⟩)]
        (.forNode "r" [.forNode "r" []]) [] = .error (.keyError "r") := by
  simp [writeNode, writeList, forRows, srcLookup, envGet, envSet, envRemove,
    envDel, List.find?]

/-! ## Template compiler (`XscTemplate.__init__` / `_processNode`)

The raw DOM is an explicit inductive.  The mutable `XscNode` objects held by
the two stacks are modeled as an arena of records indexed by allocation
order; `addChild` mutates the record the top of `_xscStack` points to.
Module import happens at compile time inside `_processNode` and is
parameterized by a success oracle. -/

inductive DomNode where
  | element (tag : String) (attrs : List (String × List Char)) (children : List DomNode)
  | textDom (data : List Char)
  | commentDom (data : List Char)
  | pi (target : String) (data : List Char)
deriving Repr

inductive NKind where
  | root
  | elementK (tag : String) (attrs : List (String × List Seg))
  | textK (tpl : List Seg)
  | commentK (data : List Char)
  | forK (rider : List Char)
  | ifK (cond : List Char)
  | pythonK (code : List Char)
deriving DecidableEq, Repr

structure ANode where
  kind : NKind
  children : List Nat
deriving DecidableEq, Repr

/-- The compiler state: allocated nodes, `_xscStack` and `_commandStack`
(head = top of stack). -/
structure CState where
  arena : List ANode
  xscStack : List Nat
  commandStack : List Nat
deriving DecidableEq, Repr

inductive CompErr where
  | tokenizeError (e : TokErr)
  | xscSyntaxError (msg : String)
  | xscInlineSyntaxError (msg : String)
  | xscImportError (moduleName : String)
  | notImplementedError (msg : String)
  | assertionError
deriving DecidableEq, Repr

/-- `self._xscStack[-1]`, with the Python `assert len(self._xscStack)`. -/
def stackTop : List Nat → Except CompErr Nat
  | [] => .error .assertionError
  | i :: _ => .ok i

def arenaAddChild (arena : List ANode) (parent child : Nat) : List ANode :=
  match arena.get? parent with
  | some nd => arena.set parent ⟨nd.kind, nd.children ++ [child]⟩
  | none => arena

def newNode (st : CState) (k : NKind) : CState × Nat :=
  ({ st with arena := st.arena ++ [⟨k, []⟩] }, st.arena.length)

/-- `self.currentXscNode.addChild(xscNode)`. -/
def addChildTop (st : CState) (child : Nat) : Except CompErr CState :=
  match stackTop st.xscStack with
  | .error e => .error e
  | .ok top => .ok { st with arena := arenaAddChild st.arena top child }

def pushXsc (st : CState) (i : Nat) : CState :=
  { st with xscStack := i :: st.xscStack }

def popXsc (st : CState) : Except CompErr CState :=
  match st.xscStack with
  | [] => .error .assertionError
  | _ :: rest => .ok { st with xscStack := rest }

def pushCommand (st : CState) (i : Nat) : CState :=
  pushXsc { st with commandStack := i :: st.commandStack } i

/-- `_popCommand`: pop the command stack and the node stack; the popped
directive is never compared against the requested end name. -/
def popCommand (st : CState) : Except CompErr CState :=
  match st.commandStack with
  | [] => .error .assertionError
  | _ :: rest => popXsc { st with commandStack := rest }

/-- Python whitespace for `str.split()`. -/
def isSpaceChar (c : Char) : Bool :=
  c == ' ' || c == Char.ofNat 9 || c == Char.ofNat 10 || c == Char.ofNat 13 ||
    c == Char.ofNat 11 || c == Char.ofNat 12

def splitWordsAux (acc : List Char) : List Char → List (List Char)
  | [] => if acc.isEmpty then [] else [acc.reverse]
  | c :: rest =>
    if isSpaceChar c then
      if acc.isEmpty then splitWordsAux [] rest
      else acc.reverse :: splitWordsAux [] rest
    else splitWordsAux (c :: acc) rest

/-- `data.strip().split()`. -/
def splitWords (cs : List Char) : List (List Char) := splitWordsAux [] cs

/-- The `target == 'xsc'` dispatch of `XscTemplate._processNode` on a
processing instruction. -/
def processXscInstruction (importOk : List Char → Bool) (st : CState)
    (data : List Char) : Except CompErr CState :=
  match splitWords data with
  | [] => .error (.xscSyntaxError "xsc command must be specified")
  | command :: args =>
    if command = "for".data then
      match args with
      | [rider] =>
        let (st2, i) := newNode st (.forK rider)
        match addChildTop st2 i with
        | .error e => .error e
        | .ok st3 => .ok (pushCommand st3 i)
      | _ => .error (.xscSyntaxError "for command must match for rider")
    else if command = "end".data then
      match args with
      | [] => .error (.xscInlineSyntaxError "xsc command to end must be specified")
      | [_endName] => popCommand st
      | _ => .error (.xscInlineSyntaxError "text after xsc command to end must be removed")
    else if command = "if".data then
      if args.isEmpty then
        .error (.xscSyntaxError "if command must match if condition")
      else if data.take 2 = "if".data then
        let (st2, i) := newNode st (.ifK (data.drop 2))
        match addChildTop st2 i with
        | .error e => .error e
        | .ok st3 => .ok (pushCommand st3 i)
      else .error (.notImplementedError "cannot process white space before if")
    else if command = "import".data then
      match args with
      | [] => .error (.xscInlineSyntaxError "Python module to import must be specified")
      | [moduleName] =>
        if importOk moduleName then .ok st
        else .error (.xscImportError (String.mk moduleName))
      | _ => .error (.xscInlineSyntaxError "text after Python module to import must be removed")
    else if command = "python".data then
      let (st2, i) := newNode st (.pythonK (data.drop 6))
      addChildTop st2 i
    else
      .error (.xscSyntaxError "cannot process unknown xsc command")

/-- `ElementNode.__init__`: compile every attribute value template. -/
def compileAttrs : List (String × List Char) → Except CompErr (List (String × List Seg))
  | [] => .ok []
  | (name, value) :: rest =>
    match tokenizeChars value with
    | .error e => .error (.tokenizeError e)
    | .ok tpl =>
      match compileAttrs rest with
      | .error e => .error e
      | .ok rs => .ok ((name, tpl) :: rs)

mutual

/-- One DOM child in `XscTemplate._processNode`. -/
def processDomNode (importOk : List Char → Bool) (st : CState) (n : DomNode) :
    Except CompErr CState :=
  match n with
  | .element tag attrs children =>
    match compileAttrs attrs with
    | .error e => .error e
    | .ok segAttrs =>
      let (st2, i) := newNode st (.elementK tag segAttrs)
      match addChildTop st2 i with
      | .error e => .error e
      | .ok st3 =>
        match processDomNodes importOk (pushXsc st3 i) children with
        | .error e => .error e
        | .ok st4 => popXsc st4
  | .textDom data =>
    match tokenizeChars data with
    | .error e => .error (.tokenizeError e)
    | .ok tpl =>
      let (st2, i) := newNode st (.textK tpl)
      addChildTop st2 i
  | .commentDom data =>
    let (st2, i) := newNode st (.commentK data)
    addChildTop st2 i
  | .pi target data =>
    if target = "xsc" then processXscInstruction importOk st data
    else .error (.notImplementedError "target")

/-- The `for node in domNode.childNodes` loop. -/
def processDomNodes (importOk : List Char → Bool) (st : CState) (ns : List DomNode) :
    Except CompErr CState :=
  match ns with
  | [] => .ok st
  | n :: rest =>
    match processDomNode importOk st n with
    | .error e => .error e
    | .ok st2 => processDomNodes importOk st2 rest

end

def initialCState : CState := ⟨[⟨.root, []⟩], [0], []⟩

/-- `XscTemplate.__init__`: build the node tree from the document children.
No check of the command stack happens at the end: compilation returns
whatever state traversal left behind. -/
def compileTemplate (importOk : List Char → Bool) (doc : List DomNode) :
    Except CompErr CState :=
  processDomNodes importOk initialCState doc

/-! ### Claims about the compiler -/

/-- C1: compiling a template whose For directive is never closed SUCCEEDS.
`XscTemplate.__init__` runs `_processNode` and returns without inspecting
`_commandStack`, so the open For node (index 2) is still on the command
stack while compilation reports no error — the template equivalent of
`brokenMissingEndFor.xsc`, whose test asserts exit code 0 under a FIXME.
The claim (a structural error must be reported at end of traversal) states
the documented intent; the code lacks the check. -/
theorem c1_missing_end_for_compiles_with_open_stack :
    compileTemplate (fun _ => true)
        [.element "customers" [] [.pi "xsc" "for customers".data, .element "person" [] []]] =
      .ok ⟨[⟨.root, [1]⟩, ⟨.elementK "customers" [], [2]⟩,
            ⟨.forK "customers".data, [3]⟩, ⟨.elementK "person" [], []⟩],
           [1, 0], [2]⟩ ∧
    ([2] : List Nat) ≠ [] := by
  decide

theorem splitWords_if_prefix (rest : List Char) :
    splitWords ('i' :: 'f' :: ' ' :: rest) = ['i', 'f'] :: splitWords rest := by
  simp [splitWords, splitWordsAux, isSpaceChar]

/-- C9, counterexample: the instruction `if x` stores the condition
`" x"` — `condition = data[2:]` keeps the separating space — while the
claim says the stored condition is `"x"` without it. -/
theorem c9_counterexample :
    compileTemplate (fun _ => true) [.pi "xsc" "if x".data, .pi "xsc" "end if".data] =
      .ok ⟨[⟨.root, [1]⟩, ⟨.ifK [' ', 'x'], []⟩], [0], []⟩ ∧
    ([' ', 'x'] : List Char) ≠ ['x'] := by
  decide

/-- C9 (amended): for every accepted `if` directive instruction, the stored
condition is the remainder of the instruction text after the two keyword
characters, INCLUDING the separating space: compiling the single
instruction `if <rest>` allocates an If node whose condition is the space
followed by `rest`. -/
theorem c9_if_condition_keeps_space (importOk : List Char → Bool)
    (rest : List Char) (hw : splitWords rest ≠ []) :
    compileTemplate importOk [.pi "xsc" ('i' :: 'f' :: ' ' :: rest)] =
      .ok ⟨[⟨.root, [1]⟩, ⟨.ifK (' ' :: rest), []⟩], [1, 0], [1]⟩ := by
  have hne : (splitWords rest).isEmpty = false := by
    simp [List.isEmpty_iff, hw]
  simp [compileTemplate, processDomNodes, processDomNode, processXscInstruction,
    initialCState, newNode, addChildTop, stackTop, arenaAddChild,
    pushXsc, pushCommand, splitWords_if_prefix, hne]

theorem c9_if_condition_keeps_space_witness :
    compileTemplate (fun _ => true) [.pi "xsc" ('i' :: 'f' :: ' ' :: ['x'])] =
      .ok ⟨[⟨.root, [1]⟩, ⟨.ifK [' ', 'x'], []⟩], [1, 0], [1]⟩ :=
  c9_if_condition_keeps_space (fun _ => true) ['x'] (by decide)

end Xsc
